import Mathlib

/-
Shallow embedding of the price-series statistics library (priceseries.py,
asset.py, constant.py).  Prices are modelled as exact rationals; the values
produced by `math.log` and `math.sqrt` are modelled by `Real.log` and
`Real.sqrt`.  Fallible Python code is modelled with `Except Err`, where the
constructors of `Err` stand for the distinct Python exceptions the code can
raise (distinct `ValueError` messages get distinct constructors).
-/

/-- Python exceptions raised by the code, one constructor per distinct error:
`indexError` for `IndexError`, `zeroDivisionError` for `ZeroDivisionError`,
`mathDomainError` for `ValueError: math domain error` from `math.log`,
`notEnoughData` for `ValueError("Not enough data points")`,
`validationError` for the two `ValueError`s of `Asset.__init__`,
`attributeError` for `AttributeError`, and `undefinedResult` for the
undefined / NaN-like result the spec assigns to a zero-variance correlation. -/
inductive Err where
  | indexError
  | zeroDivisionError
  | mathDomainError
  | notEnoughData
  | validationError
  | attributeError
  | undefinedResult
  deriving DecidableEq, Repr

instance {ε α : Type} [DecidableEq ε] [DecidableEq α] : DecidableEq (Except ε α) := fun a b =>
  match a, b with
  | .ok x, .ok y => if h : x = y then .isTrue (by rw [h]) else .isFalse (by simp [h])
  | .ok _, .error _ => .isFalse (by simp)
  | .error _, .ok _ => .isFalse (by simp)
  | .error e, .error f => if h : e = f then .isTrue (by rw [h]) else .isFalse (by simp [h])

/-- The currency enumeration of `constant.py` (a `StrEnum` with four members). -/
inductive Currency where
  | USD
  | EUR
  | GBP
  | JPY
  deriving DecidableEq, Repr

/-- `PriceSeries` of priceseries.py: an ordered list of prices and a name. -/
structure PriceSeries where
  values : List ℚ
  name : String
  deriving DecidableEq, Repr

/-- `PriceSeries.__init__`: `self.values = list(values)` (a defensive copy,
which in this pure embedding is element-wise the same list) and
`self.name = name`; no validation is performed, so construction succeeds on
every input, the empty list included. -/
def PriceSeries.make (values : List ℚ) (name : String) : Except Err PriceSeries :=
  .ok ⟨values, name⟩

/-- `TRADING_DAYS_PER_YEAR = 252` of priceseries.py. -/
def TRADING_DAYS_PER_YEAR : ℕ := 252

/-- Python list subscription `l[i]`: a negative index is taken from the end
(`l[i]` is `l[i + len(l)]` for `-len(l) <= i < 0`); any index outside
`[-len(l), len(l))` raises `IndexError`. -/
def pyGet (l : List ℚ) (i : Int) : Except Err ℚ :=
  let n : Int := l.length
  let j : Int := if i < 0 then i + n else i
  if 0 ≤ j ∧ j < n then .ok (l.getD j.toNat 0) else .error .indexError

/-- Python `str.strip()`: removes leading and trailing whitespace. -/
def pyStrip (s : String) : String :=
  String.mk (((s.data.dropWhile Char.isWhitespace).reverse.dropWhile Char.isWhitespace).reverse)

/-- Python `str.upper()`: upper-cases every character. -/
def pyUpper (s : String) : String :=
  String.mk (s.data.map Char.toUpper)

/-- Python division `a / b`: raises `ZeroDivisionError` when `b == 0`. -/
def pyDiv (a b : ℚ) : Except Err ℚ :=
  if b = 0 then .error .zeroDivisionError else .ok (a / b)

/-- Python `max` over a list; the empty case is unreachable in this code
(every call site passes a non-empty slice). -/
def pyMax : List ℚ → ℚ
  | [] => 0
  | x :: xs => xs.foldl max x

/-- Python `min` over a list; the empty case is unreachable where used. -/
def pyMin : List ℚ → ℚ
  | [] => 0
  | x :: xs => xs.foldl min x

/-- A Python list comprehension over a fallible element computation:
elements are evaluated left to right and the first exception propagates. -/
def mapExcept {α β : Type} (f : α → Except Err β) : List α → Except Err (List β)
  | [] => .ok []
  | a :: as =>
    match f a with
    | .error e => .error e
    | .ok b =>
      match mapExcept f as with
      | .error e => .error e
      | .ok bs => .ok (b :: bs)

/-- `PriceSeries.linear_return`:
`(self.values[t] - self.values[t-1]) / self.values[t-1]` with no bounds
check of its own (Python subscription semantics apply). -/
def linear_return (ps : PriceSeries) (t : Int) : Except Err ℚ :=
  match pyGet ps.values t with
  | .error e => .error e
  | .ok a =>
    match pyGet ps.values (t - 1) with
    | .error e => .error e
    | .ok b => pyDiv (a - b) b

/-- `PriceSeries.log_return`: `math.log(self.values[t] / self.values[t-1])`;
the division raises `ZeroDivisionError` on a zero denominator and `math.log`
raises a math domain error on a non-positive argument. -/
noncomputable def log_return (ps : PriceSeries) (t : Int) : Except Err ℝ :=
  match pyGet ps.values t with
  | .error e => .error e
  | .ok a =>
    match pyGet ps.values (t - 1) with
    | .error e => .error e
    | .ok b =>
      match pyDiv a b with
      | .error e => .error e
      | .ok r => if r ≤ 0 then .error .mathDomainError else .ok (Real.log (r : ℝ))

/-- `PriceSeries.total_return`: `0.0` for fewer than two values, otherwise
`(self.values[-1] - self.values[0]) / self.values[0]`. -/
def total_return (ps : PriceSeries) : Except Err ℚ :=
  if ps.values.length < 2 then .ok 0
  else
    match pyGet ps.values (-1) with
    | .error e => .error e
    | .ok last =>
      match pyGet ps.values 0 with
      | .error e => .error e
      | .ok first => pyDiv (last - first) first

/-- `PriceSeries.get_all_log_returns`:
`[self.log_return(t) for t in range(1, len(self.values))]`. -/
noncomputable def get_all_log_returns (ps : PriceSeries) : Except Err (List ℝ) :=
  mapExcept (fun i : ℕ => log_return ps ((i : Int) + 1)) (List.range (ps.values.length - 1))

/-- `PriceSeries.annualized_volatility`: rejects series shorter than 3, then
takes the sample standard deviation (denominator `n - 1`) of the log-returns
and scales it by `sqrt(TRADING_DAYS_PER_YEAR)`. -/
noncomputable def annualized_volatility (ps : PriceSeries) : Except Err ℝ :=
  if ps.values.length < 3 then .error .notEnoughData
  else
    match get_all_log_returns ps with
    | .error e => .error e
    | .ok log_returns =>
      let n := log_returns.length
      let mean := log_returns.sum / n
      let var := (log_returns.map (fun l_r => (l_r - mean) ^ 2)).sum / ((n : ℝ) - 1)
      let daily_vol := Real.sqrt var
      .ok (daily_vol * Real.sqrt (TRADING_DAYS_PER_YEAR : ℝ))

/-- `PriceSeries.annualized_return`: rejects series shorter than 2, then
returns the mean log-return times `TRADING_DAYS_PER_YEAR`. -/
noncomputable def annualized_return (ps : PriceSeries) : Except Err ℝ :=
  if ps.values.length < 2 then .error .notEnoughData
  else
    match get_all_log_returns ps with
    | .error e => .error e
    | .ok r => .ok ((r.sum / r.length) * (TRADING_DAYS_PER_YEAR : ℝ))

open scoped Classical in
/-- `PriceSeries.sharpe_ratio`: `vol = self.annualized_volatility()`; returns
`0.0` when `vol == 0`, else `(self.annualized_return() - risk_free_rate) / vol`. -/
noncomputable def sharpe_ratio (ps : PriceSeries) (risk_free_rate : ℝ) : Except Err ℝ :=
  match annualized_volatility ps with
  | .error e => .error e
  | .ok vol =>
    if vol = 0 then .ok 0
    else
      match annualized_return ps with
      | .error e => .error e
      | .ok ar => .ok ((ar - risk_free_rate) / vol)

/-- `PriceSeries.drawdown_at`: explicit bounds check raising `IndexError`,
then `peak = max(self.values[:t+1])`, returning `0.0` when `peak == 0` and
`(self.values[t] - peak) / peak` otherwise. -/
def drawdown_at (ps : PriceSeries) (t : Int) : Except Err ℚ :=
  if t < 0 ∨ (ps.values.length : Int) ≤ t then .error .indexError
  else
    let peak := pyMax (ps.values.take (t.toNat + 1))
    if peak = 0 then .ok 0
    else .ok ((ps.values.getD t.toNat 0 - peak) / peak)

/-- The loop of `max_drawdown`: for each value, update the running peak and,
only when the peak is positive, fold the drawdown into the running minimum. -/
def mddGo : List ℚ → ℚ → ℚ → ℚ
  | [], _, max_dd => max_dd
  | v :: vs, peak, max_dd =>
    let peak' := max peak v
    let max_dd' := if 0 < peak' then min max_dd ((v - peak') / peak') else max_dd
    mddGo vs peak' max_dd'

/-- `max_drawdown` of priceseries.py (note: in the source this is a
module-level function taking `self`, not a method of `PriceSeries`):
`max_dd = 0.0`, `peak = self.values[0]` (an `IndexError` on an empty series),
then the running-peak loop over `self.values[1:]`. -/
def max_drawdown (ps : PriceSeries) : Except Err ℚ :=
  match ps.values with
  | [] => .error .indexError
  | v :: vs => .ok (mddGo vs v 0)

/-- `Asset` of asset.py: the attributes bound by `__init__`
(`ticker`, `prices`, `sector`, `currency`) — the only `self.*` assignments. -/
structure Asset where
  ticker : String
  prices : PriceSeries
  sector : Option String
  currency : Currency
  deriving DecidableEq, Repr

/-- `Asset.__init__`: raises `ValueError` when the ticker is empty or
whitespace-only (`not ticker or not ticker.strip()`), or when the supplied
series is empty; on success stores the upper-cased ticker and the series,
sector and currency unchanged. -/
def Asset.make (ticker : String) (prices : PriceSeries) (sector : Option String)
    (currency : Currency) : Except Err Asset :=
  if ticker = "" ∨ pyStrip ticker = "" then .error .validationError
  else if prices.values.length = 0 then .error .validationError
  else .ok ⟨pyUpper ticker, prices, sector, currency⟩

/-- Attribute access `a.volatility` on an `Asset` instance as the source
stands: the `@property` definitions for `volatility`, `total_return`,
`sharpe_ratio` and `max_drawdown` sit in the local scope of `__init__`
(indented inside it) and are never bound on the class, so the lookup raises
`AttributeError`; moreover the body of `volatility` names
`prices.get_annualized_volatility` and the body of `max_drawdown` names
`prices.max_drawdown`, neither of which exists on `PriceSeries`
(`max_drawdown` is module-level), so those two would fail even if attached. -/
def Asset.volatility_attr (_ : Asset) : Except Err ℝ := .error .attributeError

/-- The mean of the first components of a list of pairs. -/
noncomputable def pmeanFst (p : List (ℝ × ℝ)) : ℝ := (p.map Prod.fst).sum / p.length

/-- The mean of the second components of a list of pairs. -/
noncomputable def pmeanSnd (p : List (ℝ × ℝ)) : ℝ := (p.map Prod.snd).sum / p.length

/-- Sum of squared deviations of the first components from their mean. -/
noncomputable def psxx (p : List (ℝ × ℝ)) : ℝ :=
  (p.map (fun q => (q.1 - pmeanFst p) ^ 2)).sum

/-- Sum of squared deviations of the second components from their mean. -/
noncomputable def psyy (p : List (ℝ × ℝ)) : ℝ :=
  (p.map (fun q => (q.2 - pmeanSnd p) ^ 2)).sum

/-- Sum of products of the centered components. -/
noncomputable def psxy (p : List (ℝ × ℝ)) : ℝ :=
  (p.map (fun q => (q.1 - pmeanFst p) * (q.2 - pmeanSnd p))).sum

open scoped Classical in
/-- Modelled from the spec: the Pearson correlation coefficient of two
positionally paired sequences — the normalized centered covariance
`sxy / sqrt(sxx * syy)` over the zipped pairs; when either sequence has zero
variance the result is undefined (NaN-like), modelled as an error. -/
noncomputable def pearson (xs ys : List ℝ) : Except Err ℝ :=
  let p := xs.zip ys
  if psxx p = 0 ∨ psyy p = 0 then .error .undefinedResult
  else .ok (psxy p / Real.sqrt (psxx p * psyy p))

/-- Modelled from the spec: the body of `Asset.correlation_with` is missing
from the source (only the signature and docstring are present); per the spec
it computes the Pearson correlation coefficient between this asset's
log-returns and the other's, paired positionally. -/
noncomputable def Asset.correlation_with (a other : Asset) : Except Err ℝ :=
  match get_all_log_returns a.prices with
  | .error e => .error e
  | .ok xs =>
    match get_all_log_returns other.prices with
    | .error e => .error e
    | .ok ys => pearson xs ys

/-- The spec's log-return sequence of a series: for each `i`,
`ln(values[i+1] / values[i])`. -/
noncomputable def specLogReturns (ps : PriceSeries) : List ℝ :=
  (List.range (ps.values.length - 1)).map
    (fun i => Real.log ((ps.values.getD (i + 1) 0 : ℝ) / (ps.values.getD i 0 : ℝ)))

/-- The spec's unbiased sample variance of a sequence: the sum of squared
deviations from the mean divided by (count - 1), written with `Finset` sums. -/
noncomputable def sampleVariance (l : List ℝ) : ℝ :=
  let n := l.length
  let m := (∑ i ∈ Finset.range n, l.getD i 0) / n
  (∑ i ∈ Finset.range n, (l.getD i 0 - m) ^ 2) / ((n : ℝ) - 1)

theorem pyGet_nat (l : List ℚ) (i : ℕ) (h : i < l.length) :
    pyGet l (i : Int) = .ok (l.getD i 0) := by
  have h0 : ¬ ((i : Int) < 0) := by omega
  simp only [pyGet, if_neg h0, Int.toNat_natCast]
  rw [if_pos ⟨by omega, by omega⟩]

theorem pyGet_neg_one (l : List ℚ) (h : l ≠ []) :
    pyGet l (-1) = .ok (l.getD (l.length - 1) 0) := by
  have hl : 0 < l.length := List.length_pos.mpr h
  have h0 : ((-1 : Int) < 0) := by omega
  simp only [pyGet, if_pos h0]
  rw [if_pos ⟨by omega, by omega⟩, show ((-1 : Int) + l.length).toNat = l.length - 1 from by omega]

theorem pyGet_error_iff (l : List ℚ) (i : Int) (e : Err) :
    pyGet l i = .error e ↔ e = .indexError ∧ ((l.length : Int) ≤ i ∨ i < -(l.length : Int)) := by
  simp only [pyGet]
  split_ifs with h1 h2 h2 <;> constructor <;> intro hh
  · simp at hh
  · exact absurd hh.2 (by omega)
  · simp at hh
    exact ⟨hh.symm, by omega⟩
  · rw [hh.1]
  · simp at hh
  · exact absurd hh.2 (by omega)
  · simp at hh
    exact ⟨hh.symm, by omega⟩
  · rw [hh.1]

theorem pyGet_ok_exists (l : List ℚ) (i : Int)
    (h : -(l.length : Int) ≤ i ∧ i < (l.length : Int)) : ∃ q, pyGet l i = .ok q := by
  simp only [pyGet]
  split_ifs with h1 h2 h2
  · exact ⟨_, rfl⟩
  · omega
  · exact ⟨_, rfl⟩
  · omega

theorem mapExcept_ok_of {α β : Type} (f : α → Except Err β) (g : α → β) :
    ∀ l : List α, (∀ a ∈ l, f a = .ok (g a)) → mapExcept f l = .ok (l.map g) := by
  intro l
  induction l with
  | nil => intro _; rfl
  | cons a as ih =>
    intro hall
    have ha : f a = .ok (g a) := hall a (by simp)
    have has : mapExcept f as = .ok (as.map g) := ih (fun x hx => hall x (by simp [hx]))
    simp only [mapExcept, ha, has, List.map_cons]

theorem mapExcept_error_mem {α β : Type} (f : α → Except Err β) (e : Err) :
    ∀ l : List α, mapExcept f l = .error e → ∃ a ∈ l, f a = .error e := by
  intro l
  induction l with
  | nil => intro h; simp [mapExcept] at h
  | cons a as ih =>
    intro h
    simp only [mapExcept] at h
    cases hfa : f a with
    | error e' =>
      rw [hfa] at h
      obtain rfl : e = e' := by simpa using h.symm
      exact ⟨a, by simp, hfa⟩
    | ok b =>
      rw [hfa] at h
      cases hrest : mapExcept f as with
      | error e' =>
        rw [hrest] at h
        obtain rfl : e = e' := by simpa using h.symm
        obtain ⟨x, hx, hfx⟩ := ih hrest
        exact ⟨x, by simp [hx], hfx⟩
      | ok bs =>
        rw [hrest] at h
        simp at h

theorem mapExcept_ok_length {α β : Type} (f : α → Except Err β) :
    ∀ (l : List α) (bs : List β), mapExcept f l = .ok bs → bs.length = l.length := by
  intro l
  induction l with
  | nil =>
    intro bs h
    simp only [mapExcept] at h
    obtain rfl : ([] : List β) = bs := by simpa using h.symm
    rfl
  | cons a as ih =>
    intro bs h
    simp only [mapExcept] at h
    cases hfa : f a with
    | error e' => rw [hfa] at h; simp at h
    | ok b =>
      rw [hfa] at h
      cases hrest : mapExcept f as with
      | error e' => rw [hrest] at h; simp at h
      | ok cs =>
        rw [hrest] at h
        obtain rfl : bs = b :: cs := by simpa using h.symm
        simp [ih cs hrest]

theorem log_return_ok (ps : PriceSeries) (i : ℕ) (h : i + 1 < ps.values.length)
    (hpos : 0 < ps.values.getD i 0 * ps.values.getD (i + 1) 0) :
    log_return ps ((i : Int) + 1) =
      .ok (Real.log ((ps.values.getD (i + 1) 0 : ℝ) / (ps.values.getD i 0 : ℝ))) := by
  have hi : ps.values.getD i 0 ≠ 0 := by
    intro h0
    rw [h0] at hpos
    simp at hpos
  have hr : 0 < ps.values.getD (i + 1) 0 / ps.values.getD i 0 := by
    rcases mul_pos_iff.mp hpos with ⟨h1, h2⟩ | ⟨h1, h2⟩
    · exact div_pos h2 h1
    · exact div_pos_of_neg_of_neg h2 h1
  have e1 : pyGet ps.values ((i : Int) + 1) = .ok (ps.values.getD (i + 1) 0) := by
    have := pyGet_nat ps.values (i + 1) h
    rw [show (((i + 1 : ℕ)) : Int) = (i : Int) + 1 from by push_cast; ring] at this
    exact this
  have e2 : pyGet ps.values ((i : Int) + 1 - 1) = .ok (ps.values.getD i 0) := by
    have := pyGet_nat ps.values i (by omega)
    rw [show ((i : ℕ) : Int) = (i : Int) + 1 - 1 from by ring] at this
    exact this
  rw [log_return, e1, e2]
  simp only [pyDiv, if_neg hi]
  rw [if_neg (not_le.mpr hr)]
  push_cast
  rfl

theorem log_return_error_kinds (ps : PriceSeries) (t : Int) (e : Err)
    (h : log_return ps t = .error e) :
    e = .indexError ∨ e = .zeroDivisionError ∨ e = .mathDomainError := by
  rw [log_return] at h
  cases h1 : pyGet ps.values t with
  | error e1 =>
    rw [h1] at h
    simp at h
    left
    rw [← h, (pyGet_error_iff _ _ _ |>.mp h1).1]
  | ok a =>
    rw [h1] at h
    cases h2 : pyGet ps.values (t - 1) with
    | error e2 =>
      rw [h2] at h
      simp at h
      left
      rw [← h, (pyGet_error_iff _ _ _ |>.mp h2).1]
    | ok b =>
      rw [h2] at h
      simp only [pyDiv] at h
      split_ifs at h with hb
      · simp at h
        right
        left
        exact h.symm
      · dsimp only at h
        split_ifs at h with hr
        · simp at h
          right
          right
          exact h.symm

theorem get_all_log_returns_ok (ps : PriceSeries)
    (hpos : ∀ i, i + 1 < ps.values.length → 0 < ps.values.getD i 0 * ps.values.getD (i + 1) 0) :
    get_all_log_returns ps = .ok (specLogReturns ps) := by
  rw [get_all_log_returns, specLogReturns]
  apply mapExcept_ok_of
  intro i hi
  have hi' : i + 1 < ps.values.length := by
    have := List.mem_range.mp hi
    omega
  exact log_return_ok ps i hi' (hpos i hi')

theorem get_all_log_returns_error_kinds (ps : PriceSeries) (e : Err)
    (h : get_all_log_returns ps = .error e) :
    e = .indexError ∨ e = .zeroDivisionError ∨ e = .mathDomainError := by
  rw [get_all_log_returns] at h
  obtain ⟨i, _, hfi⟩ := mapExcept_error_mem _ _ _ h
  exact log_return_error_kinds ps _ _ hfi

theorem get_all_log_returns_length (ps : PriceSeries) (rs : List ℝ)
    (h : get_all_log_returns ps = .ok rs) : rs.length = ps.values.length - 1 := by
  rw [get_all_log_returns] at h
  simpa using mapExcept_ok_length _ _ _ h

theorem pyGet_int_in_range (l : List ℚ) (t : Int) (h0 : 0 ≤ t) (h1 : t < l.length) :
    pyGet l t = .ok (l.getD t.toNat 0) := by
  have := pyGet_nat l t.toNat (by omega)
  rw [Int.toNat_of_nonneg h0] at this
  exact this

theorem index_error_chain (l : List ℚ) (t : Int) :
    ((l.length : Int) ≤ t ∨ t ≤ -(l.length : Int)) →
    (pyGet l t = .error .indexError ∨
      ∃ a, pyGet l t = .ok a ∧ pyGet l (t - 1) = .error .indexError) := by
  intro h
  by_cases h1 : (l.length : Int) ≤ t ∨ t < -(l.length : Int)
  · left
    exact (pyGet_error_iff _ _ _).mpr ⟨rfl, h1⟩
  · obtain ⟨a, ha⟩ := pyGet_ok_exists l t ⟨by omega, by omega⟩
    right
    exact ⟨a, ha, (pyGet_error_iff _ _ _).mpr ⟨rfl, by omega⟩⟩

theorem linear_return_index_error_iff (ps : PriceSeries) (t : Int) :
    linear_return ps t = .error .indexError ↔
      ((ps.values.length : Int) ≤ t ∨ t ≤ -(ps.values.length : Int)) := by
  constructor
  · intro h
    rw [linear_return] at h
    cases hg1 : pyGet ps.values t with
    | error e1 =>
      rw [hg1] at h
      dsimp only at h
      obtain rfl : e1 = .indexError := by simpa using h
      have := (pyGet_error_iff _ _ _).mp hg1
      omega
    | ok a =>
      rw [hg1] at h
      dsimp only at h
      cases hg2 : pyGet ps.values (t - 1) with
      | error e2 =>
        rw [hg2] at h
        dsimp only at h
        obtain rfl : e2 = .indexError := by simpa using h
        have := (pyGet_error_iff _ _ _).mp hg2
        omega
      | ok b =>
        rw [hg2] at h
        dsimp only at h
        rw [pyDiv] at h
        split_ifs at h
        all_goals simp at h
  · intro h
    rcases index_error_chain ps.values t h with h1 | ⟨a, ha, hb⟩
    · rw [linear_return, h1]
    · rw [linear_return, ha, hb]

theorem log_return_index_error_iff (ps : PriceSeries) (t : Int) :
    log_return ps t = .error .indexError ↔
      ((ps.values.length : Int) ≤ t ∨ t ≤ -(ps.values.length : Int)) := by
  constructor
  · intro h
    rw [log_return] at h
    cases hg1 : pyGet ps.values t with
    | error e1 =>
      rw [hg1] at h
      dsimp only at h
      obtain rfl : e1 = .indexError := by simpa using h
      have := (pyGet_error_iff _ _ _).mp hg1
      omega
    | ok a =>
      rw [hg1] at h
      dsimp only at h
      cases hg2 : pyGet ps.values (t - 1) with
      | error e2 =>
        rw [hg2] at h
        dsimp only at h
        obtain rfl : e2 = .indexError := by simpa using h
        have := (pyGet_error_iff _ _ _).mp hg2
        omega
      | ok b =>
        rw [hg2] at h
        dsimp only at h
        rw [pyDiv] at h
        split_ifs at h with hb
        · simp at h
        · dsimp only at h
          split_ifs at h with hr
          simp at h
  · intro h
    rcases index_error_chain ps.values t h with h1 | ⟨a, ha, hb⟩
    · rw [log_return, h1]
    · rw [log_return, ha, hb]

/-- C2 (amended): `linear_return(t)` and `log_return(t)` raise `IndexError`
exactly when `t >= len(values)` or `t <= -len(values)` (Python negative
indices wrap, so `t = 0` is accepted and pairs `values[0]` with
`values[len-1]`); for `1 <= t < len(values)` with `values[t-1] != 0`,
`linear_return(t)` returns `(values[t] - values[t-1]) / values[t-1]` and
`log_return(t)` raises a math-domain error exactly when
`values[t] / values[t-1] <= 0`; with `values[t-1] == 0` both raise
`ZeroDivisionError`. -/
theorem return_index_and_domain_contract (ps : PriceSeries) (t : Int) :
    (linear_return ps t = .error .indexError ↔
      ((ps.values.length : Int) ≤ t ∨ t ≤ -(ps.values.length : Int)))
    ∧ (log_return ps t = .error .indexError ↔
      ((ps.values.length : Int) ≤ t ∨ t ≤ -(ps.values.length : Int)))
    ∧ (1 ≤ t → t < (ps.values.length : Int) →
        (ps.values.getD (t - 1).toNat 0 ≠ 0 →
          linear_return ps t =
            .ok ((ps.values.getD t.toNat 0 - ps.values.getD (t - 1).toNat 0) /
              ps.values.getD (t - 1).toNat 0)
          ∧ (log_return ps t = .error .mathDomainError ↔
              ps.values.getD t.toNat 0 / ps.values.getD (t - 1).toNat 0 ≤ 0))
        ∧ (ps.values.getD (t - 1).toNat 0 = 0 →
          linear_return ps t = .error .zeroDivisionError ∧
          log_return ps t = .error .zeroDivisionError)) := by
  refine ⟨linear_return_index_error_iff ps t, log_return_index_error_iff ps t, ?_⟩
  intro h1 h2
  have e1 : pyGet ps.values t = .ok (ps.values.getD t.toNat 0) :=
    pyGet_int_in_range _ _ (by omega) h2
  have e2 : pyGet ps.values (t - 1) = .ok (ps.values.getD (t - 1).toNat 0) :=
    pyGet_int_in_range _ _ (by omega) (by omega)
  constructor
  · intro hb
    constructor
    · rw [linear_return, e1, e2]
      dsimp only
      rw [pyDiv, if_neg hb]
    · rw [log_return, e1, e2]
      dsimp only
      rw [pyDiv, if_neg hb]
      dsimp only
      split_ifs with hr
      · exact iff_of_true rfl hr
      · exact iff_of_false (by simp) hr
  · intro hb
    constructor
    · rw [linear_return, e1, e2]
      dsimp only
      rw [pyDiv, if_pos hb]
    · rw [log_return, e1, e2]
      dsimp only
      rw [pyDiv, if_pos hb]

/-- C2 counterexample: on the series `[1, 2]`, `linear_return(0)` does not
raise an `IndexError`: Python's negative-index wrap makes `values[-1]` the
last element, so it returns `(1 - 2) / 2 = -1/2`. -/
theorem linear_return_at_zero_no_index_error :
    linear_return ⟨[1, 2], "s"⟩ 0 = .ok (-(1/2)) := by
  norm_num [linear_return, pyGet, pyDiv, Int.toNat]

/-- Witness for the amended C2 contract at the series `[4, 2]` and `t = 1`. -/
theorem return_index_and_domain_contract_witness :
    linear_return ⟨[4, 2], "w"⟩ 1 =
      .ok ((([4, 2] : List ℚ).getD (1 : Int).toNat 0 -
          ([4, 2] : List ℚ).getD ((1 : Int) - 1).toNat 0) /
        ([4, 2] : List ℚ).getD ((1 : Int) - 1).toNat 0)
    ∧ (log_return ⟨[4, 2], "w"⟩ 1 = .error .mathDomainError ↔
        ([4, 2] : List ℚ).getD (1 : Int).toNat 0 /
          ([4, 2] : List ℚ).getD ((1 : Int) - 1).toNat 0 ≤ 0) := by
  have h := (return_index_and_domain_contract ⟨[4, 2], "w"⟩ 1).2.2
    (by norm_num) (by norm_num)
  exact h.1 (by norm_num [Int.toNat])

/-- C9 (amended): for `n >= 2` with `values[0] != 0`, `total_return` equals
`(values[-1] - values[0]) / values[0]`; for `n >= 2` with `values[0] == 0`
it raises `ZeroDivisionError`; for `n < 2` it is exactly `0.0` (no error). -/
theorem total_return_contract (ps : PriceSeries) :
    (2 ≤ ps.values.length → ps.values.getD 0 0 ≠ 0 →
      total_return ps =
        .ok ((ps.values.getD (ps.values.length - 1) 0 - ps.values.getD 0 0) /
          ps.values.getD 0 0))
    ∧ (2 ≤ ps.values.length → ps.values.getD 0 0 = 0 →
      total_return ps = .error .zeroDivisionError)
    ∧ (ps.values.length < 2 → total_return ps = .ok 0) := by
  refine ⟨?_, ?_, ?_⟩
  · intro hn h0
    have hne : ps.values ≠ [] := by
      intro hnil
      rw [hnil] at hn
      simp at hn
    have e1 := pyGet_neg_one ps.values hne
    have e2 : pyGet ps.values ((0 : ℕ) : Int) = .ok (ps.values.getD 0 0) :=
      pyGet_nat ps.values 0 (by omega)
    rw [total_return, if_neg (by omega)]
    rw [show (-1 : Int) = -1 from rfl] at e1
    rw [e1]
    dsimp only
    rw [show ((0 : ℕ) : Int) = 0 from rfl] at e2
    rw [e2]
    dsimp only
    rw [pyDiv, if_neg h0]
  · intro hn h0
    have hne : ps.values ≠ [] := by
      intro hnil
      rw [hnil] at hn
      simp at hn
    have e1 := pyGet_neg_one ps.values hne
    have e2 : pyGet ps.values ((0 : ℕ) : Int) = .ok (ps.values.getD 0 0) :=
      pyGet_nat ps.values 0 (by omega)
    rw [total_return, if_neg (by omega), e1]
    dsimp only
    rw [show ((0 : ℕ) : Int) = 0 from rfl] at e2
    rw [e2]
    dsimp only
    rw [pyDiv, if_pos h0]
  · intro hn
    rw [total_return, if_pos hn]

/-- C9 counterexample: on the series `[0, 1]` (two values, so `n >= 2`),
`total_return` raises `ZeroDivisionError` instead of returning the value of
the claimed formula. -/
theorem total_return_zero_first_price :
    total_return ⟨[0, 1], "s"⟩ = .error .zeroDivisionError := by
  norm_num [total_return, pyGet, pyDiv, Int.toNat]

/-- Witness for the amended C9 contract at the spec's concrete series. -/
theorem total_return_contract_witness :
    total_return ⟨[100, 102, 101, 105, 103], "w"⟩ =
      .ok ((([100, 102, 101, 105, 103] : List ℚ).getD
          (([100, 102, 101, 105, 103] : List ℚ).length - 1) 0 -
          ([100, 102, 101, 105, 103] : List ℚ).getD 0 0) /
        ([100, 102, 101, 105, 103] : List ℚ).getD 0 0) :=
  (total_return_contract _).1 (by norm_num) (by norm_num)

/-- C8: Asset construction raises a validation error exactly when the ticker
strips to the empty string (empty or whitespace-only) or the series is
empty; on success the stored ticker is the upper-cased input and the series,
sector and currency are stored unchanged. -/
theorem asset_make_contract (ticker : String) (prices : PriceSeries)
    (sector : Option String) (currency : Currency) :
    ((∃ e, Asset.make ticker prices sector currency = .error e) ↔
      (pyStrip ticker = "" ∨ prices.values.length = 0))
    ∧ (∀ e, Asset.make ticker prices sector currency = .error e → e = .validationError)
    ∧ (∀ a, Asset.make ticker prices sector currency = .ok a →
        a.ticker = pyUpper ticker ∧ a.prices = prices ∧ a.sector = sector ∧
          a.currency = currency) := by
  have hstrip_empty : ticker = "" → pyStrip ticker = "" := by
    intro h
    rw [h]
    rfl
  rw [Asset.make]
  split_ifs with h1 h2
  · refine ⟨?_, ?_, ?_⟩
    · refine iff_of_true ⟨.validationError, rfl⟩ ?_
      rcases h1 with h1 | h1
      · exact Or.inl (hstrip_empty h1)
      · exact Or.inl h1
    · intro e he
      simpa using he.symm
    · intro a ha
      simp at ha
  · refine ⟨?_, ?_, ?_⟩
    · exact iff_of_true ⟨.validationError, rfl⟩ (Or.inr h2)
    · intro e he
      simpa using he.symm
    · intro a ha
      simp at ha
  · refine ⟨?_, ?_, ?_⟩
    · refine iff_of_false ?_ ?_
      · rintro ⟨e, he⟩
        simp at he
      · rintro (hs | hl)
        · exact h1 (Or.inr hs)
        · exact h2 hl
    · intro e he
      simp at he
    · intro a ha
      obtain rfl : Asset.mk (pyUpper ticker) prices sector currency = a := by
        simpa using ha
      exact ⟨rfl, rfl, rfl, rfl⟩

/-- Witness for C8 at ticker `"aapl"` and a one-element series. -/
theorem asset_make_contract_witness :
    (Asset.mk "AAPL" ⟨[1], "p"⟩ none .USD).ticker = pyUpper "aapl"
    ∧ (Asset.mk "AAPL" ⟨[1], "p"⟩ none .USD).prices = (⟨[1], "p"⟩ : PriceSeries)
    ∧ (Asset.mk "AAPL" ⟨[1], "p"⟩ none .USD).sector = none
    ∧ (Asset.mk "AAPL" ⟨[1], "p"⟩ none .USD).currency = .USD :=
  (asset_make_contract "aapl" ⟨[1], "p"⟩ none .USD).2.2 _ (by decide)

/-- C10: PriceSeries construction is total at its own boundary — it succeeds
on every input, the empty list included, storing exactly the input values
(the source's `list(values)` defensive copy is, element-wise, the same
list) — while the empty series is rejected at Asset construction. -/
theorem priceseries_make_total (vals : List ℚ) (nm : String) :
    PriceSeries.make vals nm = .ok ⟨vals, nm⟩
    ∧ (∀ (t : String) (s : Option String) (c : Currency),
        Asset.make t ⟨[], nm⟩ s c = .error .validationError) := by
  refine ⟨rfl, ?_⟩
  intro t s c
  rw [Asset.make]
  split_ifs with h1 h2
  · rfl
  · rfl
  · simp at h2

/-- C3 (code bug): accessing `volatility` on an Asset raises
`AttributeError` (the property definitions never leave `__init__`'s local
scope, and the body names a nonexistent `get_annualized_volatility`), while
the owned series' own `annualized_volatility` never raises
`AttributeError` — so the accessor cannot agree with the delegated
computation the spec describes. -/
theorem asset_volatility_attribute_error (a : Asset) :
    Asset.volatility_attr a = .error .attributeError
    ∧ ∀ e, annualized_volatility a.prices = .error e → e ≠ .attributeError := by
  refine ⟨rfl, ?_⟩
  intro e h
  rw [annualized_volatility] at h
  split_ifs at h with hlen
  · obtain rfl : e = .notEnoughData := by simpa using h.symm
    simp
  · cases hg : get_all_log_returns a.prices with
    | error e2 =>
      rw [hg] at h
      dsimp only at h
      obtain rfl : e2 = e := by simpa using h
      rcases get_all_log_returns_error_kinds _ _ hg with hk | hk | hk <;> simp [hk]
    | ok rs =>
      rw [hg] at h
      dsimp only at h
      simp at h

/-- Witness for C3 at a concrete asset with a one-element series. -/
theorem asset_volatility_attribute_error_witness :
    Asset.volatility_attr ⟨"X", ⟨[1], "p"⟩, none, .USD⟩ = .error .attributeError
    ∧ Err.notEnoughData ≠ Err.attributeError :=
  ⟨(asset_volatility_attribute_error ⟨"X", ⟨[1], "p"⟩, none, .USD⟩).1,
    (asset_volatility_attribute_error ⟨"X", ⟨[1], "p"⟩, none, .USD⟩).2 .notEnoughData
      (by norm_num [annualized_volatility])⟩

/-- C6: `annualized_volatility()` raises the insufficient-data error exactly
when the series has fewer than 3 values, `annualized_return()` exactly when
it has fewer than 2, and the volatility failure propagates unchanged through
`sharpe_ratio()`. -/
theorem insufficient_data_contract (ps : PriceSeries) :
    (annualized_volatility ps = .error .notEnoughData ↔ ps.values.length < 3)
    ∧ (annualized_return ps = .error .notEnoughData ↔ ps.values.length < 2)
    ∧ (∀ rf : ℝ, ps.values.length < 3 → sharpe_ratio ps rf = .error .notEnoughData) := by
  refine ⟨⟨?_, ?_⟩, ⟨?_, ?_⟩, ?_⟩
  · intro h
    rw [annualized_volatility] at h
    split_ifs at h with hlen
    · exact hlen
    · exfalso
      cases hg : get_all_log_returns ps with
      | error e2 =>
        rw [hg] at h
        dsimp only at h
        obtain rfl : e2 = .notEnoughData := by simpa using h
        rcases get_all_log_returns_error_kinds _ _ hg with hk | hk | hk <;> simp at hk
      | ok rs =>
        rw [hg] at h
        dsimp only at h
        simp at h
  · intro hlen
    rw [annualized_volatility, if_pos hlen]
  · intro h
    rw [annualized_return] at h
    split_ifs at h with hlen
    · exact hlen
    · exfalso
      cases hg : get_all_log_returns ps with
      | error e2 =>
        rw [hg] at h
        dsimp only at h
        obtain rfl : e2 = .notEnoughData := by simpa using h
        rcases get_all_log_returns_error_kinds _ _ hg with hk | hk | hk <;> simp at hk
      | ok rs =>
        rw [hg] at h
        dsimp only at h
        simp at h
  · intro hlen
    rw [annualized_return, if_pos hlen]
  · intro rf hlen
    have hv : annualized_volatility ps = .error .notEnoughData := by
      rw [annualized_volatility, if_pos hlen]
    rw [sharpe_ratio, hv]

/-- Witness for C6 at the two-element series `[1, 2]`. -/
theorem insufficient_data_contract_witness :
    sharpe_ratio ⟨[1, 2], "w"⟩ 0 = .error .notEnoughData :=
  (insufficient_data_contract ⟨[1, 2], "w"⟩).2.2 0 (by norm_num)

/-- C7: whenever `annualized_volatility()` succeeds with value `v`:
if `v = 0`, `sharpe_ratio` returns exactly `0.0` (no division error);
otherwise `annualized_return()` also succeeds and `sharpe_ratio` returns
`(annualized_return() - risk_free_rate) / v`. -/
theorem sharpe_ratio_contract (ps : PriceSeries) (rf v : ℝ)
    (hv : annualized_volatility ps = .ok v) :
    (v = 0 → sharpe_ratio ps rf = .ok 0)
    ∧ (v ≠ 0 → ∃ ar, annualized_return ps = .ok ar ∧
        sharpe_ratio ps rf = .ok ((ar - rf) / v)) := by
  have hlen : ¬ ps.values.length < 3 := by
    intro hlen
    rw [annualized_volatility, if_pos hlen] at hv
    simp at hv
  obtain ⟨rs, hg⟩ : ∃ rs, get_all_log_returns ps = .ok rs := by
    cases hg : get_all_log_returns ps with
    | error e2 =>
      rw [annualized_volatility, if_neg hlen, hg] at hv
      dsimp only at hv
      simp at hv
    | ok rs => exact ⟨rs, rfl⟩
  have hret : annualized_return ps = .ok ((rs.sum / rs.length) * (TRADING_DAYS_PER_YEAR : ℝ)) := by
    rw [annualized_return, if_neg (by omega), hg]
  constructor
  · intro h0
    rw [sharpe_ratio, hv]
    dsimp only
    rw [if_pos h0]
  · intro h0
    refine ⟨_, hret, ?_⟩
    rw [sharpe_ratio, hv]
    dsimp only
    rw [if_neg h0, hret]

/-- On the constant series `[1, 1, 1]` the annualized volatility is exactly
zero (all log-returns are `ln 1 = 0`). -/
theorem annualized_volatility_const_three :
    annualized_volatility ⟨[1, 1, 1], "w"⟩ = .ok 0 := by
  have hg := get_all_log_returns_ok ⟨[1, 1, 1], "w"⟩ (by
    intro i hi
    simp only [List.length_cons, List.length_nil] at hi
    have h2 : i < 2 := by omega
    interval_cases i <;> norm_num)
  have hspec : specLogReturns ⟨[1, 1, 1], "w"⟩ = [0, 0] := by
    rw [specLogReturns]
    norm_num [List.range_succ]
  rw [annualized_volatility, if_neg (by norm_num), hg, hspec]
  dsimp only
  norm_num

/-- Witness for C7 on the constant series `[1, 1, 1]` (zero volatility). -/
theorem sharpe_ratio_contract_witness :
    sharpe_ratio ⟨[1, 1, 1], "w"⟩ 0 = .ok 0 :=
  (sharpe_ratio_contract ⟨[1, 1, 1], "w"⟩ 0 0 annualized_volatility_const_three).1 rfl

/-- The pure value of `drawdown_at` at an in-range index. -/
def ddAt (vals : List ℚ) (t : ℕ) : ℚ :=
  let peak := pyMax (vals.take (t + 1))
  if peak = 0 then 0 else (vals.getD t 0 - peak) / peak

/-- The sequence of per-index drawdowns relative to a running peak seeded
with `p`, mirroring the running-peak recursion of `max_drawdown`. -/
def ddSeq (p : ℚ) : List ℚ → List ℚ
  | [] => []
  | v :: vs =>
    (if max p v = 0 then 0 else (v - max p v) / max p v) :: ddSeq (max p v) vs

theorem drawdown_at_nat (ps : PriceSeries) (t : ℕ) (h : t < ps.values.length) :
    drawdown_at ps (t : Int) = .ok (ddAt ps.values t) := by
  rw [drawdown_at, if_neg (by omega)]
  simp only [Int.toNat_natCast, ddAt]
  split_ifs with h0 <;> rfl

theorem mddGo_eq_foldl (l : List ℚ) :
    ∀ p acc : ℚ, acc ≤ 0 → mddGo l p acc = (ddSeq p l).foldl min acc := by
  induction l with
  | nil =>
    intro p acc _
    rfl
  | cons v vs ih =>
    intro p acc hacc
    rw [mddGo, ddSeq, List.foldl_cons]
    by_cases hp : 0 < max p v
    · rw [if_pos hp, if_neg (ne_of_gt hp)]
      exact ih _ _ (le_trans (min_le_left _ _) hacc)
    · have hdd : 0 ≤ (if max p v = 0 then 0 else (v - max p v) / max p v) := by
        split_ifs with h0
        · exact le_refl 0
        · have hplt : max p v < 0 := lt_of_le_of_ne (not_lt.mp hp) h0
          have hvle : v ≤ max p v := le_max_right p v
          exact div_nonneg_iff.mpr (Or.inr ⟨by linarith, le_of_lt hplt⟩)
      rw [if_neg hp, min_eq_left (le_trans hacc hdd)]
      exact ih _ _ hacc

theorem ddSeq_eq_map (rest : List ℚ) :
    ∀ p : ℚ, ddSeq p rest = (List.range rest.length).map (fun i =>
      if (rest.take (i + 1)).foldl max p = 0 then 0
      else (rest.getD i 0 - (rest.take (i + 1)).foldl max p) /
        (rest.take (i + 1)).foldl max p) := by
  induction rest with
  | nil =>
    intro p
    rfl
  | cons v vs ih =>
    intro p
    rw [ddSeq, List.length_cons, List.range_succ_eq_map, List.map_cons, List.map_map]
    congr 1
    rw [ih (max p v)]
    congr 1

theorem range_map_ddAt (v : ℚ) (vs : List ℚ) :
    (List.range (v :: vs).length).map (fun t => ddAt (v :: vs) t) = 0 :: ddSeq v vs := by
  rw [List.length_cons, List.range_succ_eq_map, List.map_cons, List.map_map]
  congr 1
  · show ddAt (v :: vs) 0 = (0 : ℚ)
    simp only [ddAt]
    split_ifs with h0
    · rfl
    · show ((v :: vs).getD 0 0 - pyMax ((v :: vs).take 1)) / pyMax ((v :: vs).take 1) = 0
      show (v - v) / v = 0
      rw [sub_self, zero_div]
  · rw [ddSeq_eq_map vs v]
    congr 1

/-- C4: on every non-empty series, `max_drawdown()` equals the minimum of
`drawdown_at(t)` over all `t` in `0..n-1`, including series containing zero
or negative prices (entries where the running peak is zero or negative
contribute non-negative drawdowns, which never drag the minimum — seeded by
the index-0 drawdown of `0.0` — any lower). -/
theorem max_drawdown_eq_min_drawdown_at (ps : PriceSeries) (h : ps.values ≠ []) :
    ∃ L, mapExcept (fun t : ℕ => drawdown_at ps (t : Int))
        (List.range ps.values.length) = .ok L
      ∧ max_drawdown ps = .ok (pyMin L) := by
  refine ⟨(List.range ps.values.length).map (fun t => ddAt ps.values t), ?_, ?_⟩
  · apply mapExcept_ok_of
    intro t ht
    exact drawdown_at_nat ps t (List.mem_range.mp ht)
  · obtain ⟨vals, nm⟩ := ps
    cases vals with
    | nil => exact absurd rfl h
    | cons v vs =>
      show Except.ok (mddGo vs v 0) = _
      rw [range_map_ddAt v vs]
      show Except.ok (mddGo vs v 0) = Except.ok ((ddSeq v vs).foldl min 0)
      rw [mddGo_eq_foldl vs v 0 le_rfl]

/-- Witness for C4 at the spec's concrete drawdown scenario
`[100, 90, 95, 80, 120]`. -/
theorem max_drawdown_eq_min_drawdown_at_witness :
    ∃ L, mapExcept (fun t : ℕ => drawdown_at ⟨[100, 90, 95, 80, 120], "w"⟩ (t : Int))
        (List.range (PriceSeries.mk [100, 90, 95, 80, 120] "w").values.length) = .ok L
      ∧ max_drawdown ⟨[100, 90, 95, 80, 120], "w"⟩ = .ok (pyMin L) :=
  max_drawdown_eq_min_drawdown_at ⟨[100, 90, 95, 80, 120], "w"⟩ (by simp)

theorem list_map_sum_eq_range_sum {α : Type} (l : List α) (f : α → ℝ) (d : α) :
    (l.map f).sum = ∑ i ∈ Finset.range l.length, f (l.getD i d) := by
  induction l with
  | nil => simp
  | cons x xs ih =>
    rw [List.map_cons, List.sum_cons, List.length_cons, Finset.sum_range_succ']
    simp only [List.getD_cons_succ, List.getD_cons_zero]
    rw [ih]
    ring

theorem list_sum_eq_range_sum (l : List ℝ) :
    l.sum = ∑ i ∈ Finset.range l.length, l.getD i 0 := by
  have h := list_map_sum_eq_range_sum l id 0
  simpa using h

/-- C5: for a series with at least three values whose consecutive price
ratios are all positive (expressed as positive products of neighbours),
`annualized_volatility()` equals the square root of the unbiased sample
variance of the `n-1` log-returns, scaled by `sqrt(252)`. -/
theorem annualized_volatility_spec_formula (ps : PriceSeries)
    (h3 : 3 ≤ ps.values.length)
    (hpos : ∀ i, i + 1 < ps.values.length →
      0 < ps.values.getD i 0 * ps.values.getD (i + 1) 0) :
    annualized_volatility ps =
      .ok (Real.sqrt (sampleVariance (specLogReturns ps)) * Real.sqrt 252) := by
  have hg := get_all_log_returns_ok ps hpos
  rw [annualized_volatility, if_neg (by omega), hg]
  dsimp only
  congr 1
  rw [sampleVariance]
  rw [list_map_sum_eq_range_sum (specLogReturns ps) _ 0, list_sum_eq_range_sum]
  norm_num [TRADING_DAYS_PER_YEAR]

/-- Witness for C5 at the series `[1, 2, 4]`. -/
theorem annualized_volatility_spec_formula_witness :
    annualized_volatility ⟨[1, 2, 4], "w"⟩ =
      .ok (Real.sqrt (sampleVariance (specLogReturns ⟨[1, 2, 4], "w"⟩)) * Real.sqrt 252) :=
  annualized_volatility_spec_formula ⟨[1, 2, 4], "w"⟩ (by norm_num) (by
    intro i hi
    simp only [List.length_cons, List.length_nil] at hi
    have h2 : i < 2 := by omega
    interval_cases i <;> norm_num)

theorem map_sq_sum_nonneg (p : List (ℝ × ℝ)) (f : ℝ × ℝ → ℝ) :
    0 ≤ (p.map (fun q => (f q) ^ 2)).sum := by
  apply List.sum_nonneg
  intro x hx
  obtain ⟨q, _, rfl⟩ := List.mem_map.mp hx
  exact sq_nonneg _

theorem psxx_nonneg (p : List (ℝ × ℝ)) : 0 ≤ psxx p :=
  map_sq_sum_nonneg p (fun q => q.1 - pmeanFst p)

theorem psyy_nonneg (p : List (ℝ × ℝ)) : 0 ≤ psyy p :=
  map_sq_sum_nonneg p (fun q => q.2 - pmeanSnd p)

theorem psxy_sq_le (p : List (ℝ × ℝ)) : (psxy p) ^ 2 ≤ psxx p * psyy p := by
  rw [psxy, psxx, psyy,
    list_map_sum_eq_range_sum p (fun q => (q.1 - pmeanFst p) * (q.2 - pmeanSnd p)) (0, 0),
    list_map_sum_eq_range_sum p (fun q => (q.1 - pmeanFst p) ^ 2) (0, 0),
    list_map_sum_eq_range_sum p (fun q => (q.2 - pmeanSnd p) ^ 2) (0, 0)]
  exact Finset.sum_mul_sq_le_sq_mul_sq _ _ _

theorem pearson_core_bounds (p : List (ℝ × ℝ))
    (hxx : psxx p ≠ 0) (hyy : psyy p ≠ 0) :
    -1 ≤ psxy p / Real.sqrt (psxx p * psyy p)
    ∧ psxy p / Real.sqrt (psxx p * psyy p) ≤ 1 := by
  have hA : 0 < psxx p := (psxx_nonneg p).lt_of_ne (Ne.symm hxx)
  have hB : 0 < psyy p := (psyy_nonneg p).lt_of_ne (Ne.symm hyy)
  have hs : 0 < Real.sqrt (psxx p * psyy p) := Real.sqrt_pos.mpr (mul_pos hA hB)
  have habs : |psxy p| ≤ Real.sqrt (psxx p * psyy p) := by
    rw [← Real.sqrt_sq_eq_abs]
    exact Real.sqrt_le_sqrt (psxy_sq_le p)
  rw [abs_le] at habs
  constructor
  · rw [le_div_iff₀ hs]
    linarith [habs.1]
  · rw [div_le_one hs]
    exact habs.2

theorem zip_self (xs : List ℝ) : xs.zip xs = xs.map (fun x => (x, x)) := by
  induction xs with
  | nil => rfl
  | cons x t ih =>
    rw [List.map_cons, ← ih]
    rfl

theorem pearson_core_self (p : List (ℝ × ℝ)) (hp : ∀ q ∈ p, q.1 = q.2)
    (hxx : psxx p ≠ 0) :
    psxy p / Real.sqrt (psxx p * psyy p) = 1 := by
  have hm : pmeanSnd p = pmeanFst p := by
    rw [pmeanFst, pmeanSnd]
    congr 2
    apply List.map_congr_left
    intro q hq
    exact (hp q hq).symm
  have h1 : psxy p = psxx p := by
    rw [psxy, psxx, hm]
    apply congrArg
    apply List.map_congr_left
    intro q hq
    rw [← hp q hq]
    ring
  have h2 : psyy p = psxx p := by
    rw [psyy, psxx, hm]
    apply congrArg
    apply List.map_congr_left
    intro q hq
    rw [← hp q hq]
  rw [h1, h2, Real.sqrt_mul_self (psxx_nonneg p)]
  exact div_self hxx

theorem pearson_ok_bounds (xs ys : List ℝ) (r : ℝ) (h : pearson xs ys = .ok r) :
    -1 ≤ r ∧ r ≤ 1 := by
  rw [pearson] at h
  split_ifs at h with hz
  push_neg at hz
  have hr := Except.ok.inj h
  subst hr
  exact pearson_core_bounds _ hz.1 hz.2

theorem pearson_self_one (xs : List ℝ) (r : ℝ) (h : pearson xs xs = .ok r) : r = 1 := by
  rw [pearson] at h
  split_ifs at h with hz
  push_neg at hz
  have hr := Except.ok.inj h
  subst hr
  apply pearson_core_self
  · intro q hq
    rw [zip_self] at hq
    obtain ⟨x, _, rfl⟩ := List.mem_map.mp hq
    rfl
  · exact hz.1

theorem pmeanSnd_self (p : List (ℝ × ℝ)) (hp : ∀ q ∈ p, q.1 = q.2) :
    pmeanSnd p = pmeanFst p := by
  rw [pmeanFst, pmeanSnd]
  congr 2
  apply List.map_congr_left
  intro q hq
  exact (hp q hq).symm

theorem psyy_self (p : List (ℝ × ℝ)) (hp : ∀ q ∈ p, q.1 = q.2) : psyy p = psxx p := by
  rw [psyy, psxx, pmeanSnd_self p hp]
  apply congrArg
  apply List.map_congr_left
  intro q hq
  rw [← hp q hq]

theorem zip_self_pairs (xs : List ℝ) : ∀ q ∈ xs.zip xs, q.1 = q.2 := by
  intro q hq
  rw [zip_self] at hq
  obtain ⟨x, _, rfl⟩ := List.mem_map.mp hq
  rfl

theorem pearson_self_ok (xs : List ℝ) (hxx : psxx (xs.zip xs) ≠ 0) :
    pearson xs xs = .ok 1 := by
  rw [pearson, if_neg (by
    rw [psyy_self _ (zip_self_pairs xs)]
    simp [hxx])]
  exact congrArg Except.ok (pearson_core_self _ (zip_self_pairs xs) hxx)

/-- C1: whenever `correlation_with` returns a value `r` — it is by
construction the Pearson correlation coefficient of the two positionally
paired log-return sequences — that value satisfies `-1 ≤ r ≤ 1`, and for an
asset correlated with itself the value is exactly `1`. -/
theorem correlation_with_bounds_and_self (a b : Asset) (r : ℝ)
    (h : Asset.correlation_with a b = .ok r) :
    (-1 ≤ r ∧ r ≤ 1) ∧ (a = b → r = 1) := by
  rw [Asset.correlation_with] at h
  cases hga : get_all_log_returns a.prices with
  | error e =>
    rw [hga] at h
    simp at h
  | ok xs =>
    rw [hga] at h
    dsimp only at h
    cases hgb : get_all_log_returns b.prices with
    | error e =>
      rw [hgb] at h
      simp at h
    | ok ys =>
      rw [hgb] at h
      dsimp only at h
      refine ⟨pearson_ok_bounds xs ys r h, ?_⟩
      intro hab
      subst hab
      rw [hga] at hgb
      obtain rfl : xs = ys := by simpa using hgb
      exact pearson_self_one xs r h

theorem specLogReturns_121 :
    specLogReturns ⟨[1, 2, 1], "p"⟩ = [Real.log 2, -Real.log 2] := by
  rw [specLogReturns]
  norm_num [List.range_succ]
  rw [one_div, Real.log_inv]

theorem correlation_self_concrete :
    Asset.correlation_with ⟨"X", ⟨[1, 2, 1], "p"⟩, none, .USD⟩
      ⟨"X", ⟨[1, 2, 1], "p"⟩, none, .USD⟩ = .ok 1 := by
  have hg : get_all_log_returns (⟨[1, 2, 1], "p"⟩ : PriceSeries) =
      .ok [Real.log 2, -Real.log 2] := by
    rw [get_all_log_returns_ok _ (by
        intro i hi
        simp only [List.length_cons, List.length_nil] at hi
        have h2 : i < 2 := by omega
        interval_cases i <;> norm_num),
      specLogReturns_121]
  rw [Asset.correlation_with]
  dsimp only
  rw [hg]
  dsimp only
  apply pearson_self_ok
  have hL : Real.log 2 ≠ 0 := ne_of_gt (Real.log_pos one_lt_two)
  have hzip : ([Real.log 2, -Real.log 2] : List ℝ).zip [Real.log 2, -Real.log 2] =
      [(Real.log 2, Real.log 2), (-Real.log 2, -Real.log 2)] := rfl
  rw [hzip]
  have hpm : pmeanFst [(Real.log 2, Real.log 2), (-Real.log 2, -Real.log 2)] = 0 := by
    rw [pmeanFst]
    norm_num
  rw [psxx, hpm]
  simp only [List.map_cons, List.map_nil, List.sum_cons, List.sum_nil]
  have hring : (Real.log 2 - 0) ^ 2 + ((-Real.log 2 - 0) ^ 2 + 0) = 2 * (Real.log 2) ^ 2 := by
    ring
  rw [hring]
  exact mul_ne_zero two_ne_zero (pow_ne_zero 2 hL)

/-- Witness for C1: the asset with prices `[1, 2, 1]` correlated with
itself gives exactly `1`, which lies in `[-1, 1]`. -/
theorem correlation_with_bounds_and_self_witness :
    ((-1 : ℝ) ≤ 1 ∧ (1 : ℝ) ≤ 1) ∧
      ((⟨"X", ⟨[1, 2, 1], "p"⟩, none, .USD⟩ : Asset) =
          ⟨"X", ⟨[1, 2, 1], "p"⟩, none, .USD⟩ → (1 : ℝ) = 1) :=
  correlation_with_bounds_and_self _ _ 1 correlation_self_concrete
